import Mathlib

/-!
Verification of the question-to-pdf core (`src/question_to_pdf.py`, class
`PseudoSystem2AI`) against its natural-language specification.

The external NLP annotation service (spaCy) is modelled as an abstract
`Annotator` record: a sentence segmenter, a tokenizer that attaches a
part-of-speech tag to each surface form, and a stop-word set.  All of the
class's own logic (`_process_text`, `_analyze_question`,
`_find_matching_sentences`, `query`) is translated statement by statement.
Python's insertion-ordered `dict` is modelled as an association list, its
stable `sorted(..., reverse=True)` as a stable descending insertion sort,
and the slice `lst[:n]` (including negative `n`) as `pySlice`.  The
out-of-range indexing `self.sentences[sent_id]` (a potential `IndexError`)
is modelled by an `Option` result: `none` is the exception.
-/

/-- A token returned by the annotator: surface text plus part-of-speech tag. -/
structure Token where
  text : String
  pos : String
deriving DecidableEq, Repr

/-- One entry of `self.document_words`: the dict built in `_process_text`
with keys `word` (lowercased), `original`, `pos`, `sentence_id`, `word_id`. -/
structure WordOccurrence where
  word : String
  original : String
  pos : String
  sentence_id : Nat
  word_id : Nat
deriving DecidableEq, Repr

/-- The dict returned by `_analyze_question`. -/
structure QuestionAnalysis where
  verbs : List String
  nouns : List String
  adjectives : List String
  all_keywords : List String
deriving DecidableEq, Repr

/-- The mutable fields of a `PseudoSystem2AI` instance. -/
structure AIState where
  document_words : List WordOccurrence
  sentences : List String
  stop_words : List String
deriving DecidableEq, Repr

/-- The external NLP service (spaCy `nlp` plus `nlp.Defaults.stop_words`):
`sents` is sentence segmentation (`doc.sents`, each sentence's text),
`tokens` is tokenization with part-of-speech tags (`nlp(text)` tokens). -/
structure Annotator where
  sents : String → List String
  tokens : String → List Token
  stop_words : List String

/-- `__init__`: both lists empty, stop words taken from the model. -/
def initState (A : Annotator) : AIState :=
  ⟨[], [], A.stop_words⟩

/-- Python's `str.lower()`: lowercase every character.  (Extensionally the
same as `String.toLower`, but written by structural recursion over the
character list so that closed instances evaluate inside the kernel.) -/
def lower (s : String) : String :=
  ⟨s.data.map Char.toLower⟩

/-- The dict appended for one token in `_process_text`:
word = `token.text.lower()`, original = `token.text`, pos = `token.pos_`. -/
def occurrenceEntry (sid : Nat) (wid : Nat) (t : Token) : WordOccurrence :=
  ⟨lower t.text, t.text, t.pos, sid, wid⟩

/-- The occurrences appended by the double loop of `_process_text`:
`for sent_id, sentence in enumerate(self.sentences): for word_id, token in
enumerate(nlp(sentence)): self.document_words.append(...)`. -/
def docOccurrences (A : Annotator) (sentences : List String) : List WordOccurrence :=
  (sentences.enum.map
    (fun p => ((A.tokens p.2).enum.map (fun q => occurrenceEntry p.1 q.1 q.2)))).flatten

/-- `_process_text`: `self.sentences` is REPLACED by the new segmentation,
while the occurrence loop only APPENDS to the existing `self.document_words`
(the source never clears it).  `load_pdf` is external text extraction
followed by this call, so this is the whole load operation on a text. -/
def processText (A : Annotator) (s : AIState) (text : String) : AIState :=
  let sentences := A.sents text
  ⟨s.document_words ++ docOccurrences A sentences, sentences, s.stop_words⟩

/-- The accumulation loop of `_analyze_question`: lowercase the token,
skip stop words, then an `elif` chain appending to one of the three
category lists. -/
def analyzeLoop (stop : List String) :
    List Token → List String → List String → List String →
      List String × List String × List String
  | [], vs, ns, adjs => (vs, ns, adjs)
  | t :: ts, vs, ns, adjs =>
    if lower t.text ∈ stop then analyzeLoop stop ts vs ns adjs
    else if t.pos = "VERB" then analyzeLoop stop ts (vs ++ [lower t.text]) ns adjs
    else if t.pos = "NOUN" then analyzeLoop stop ts vs (ns ++ [lower t.text]) adjs
    else if t.pos = "ADJ" then analyzeLoop stop ts vs ns (adjs ++ [lower t.text])
    else analyzeLoop stop ts vs ns adjs

/-- `_analyze_question`: run the loop over the annotated question and
return the four lists, `all_keywords = verbs + nouns + adjectives`. -/
def analyzeQuestion (A : Annotator) (s : AIState) (q : String) : QuestionAnalysis :=
  let r := analyzeLoop s.stop_words (A.tokens q) [] [] []
  ⟨r.1, r.2.1, r.2.2, r.1 ++ r.2.1 ++ r.2.2⟩

/-- Modelled from the spec: one keyword category of §4.3 — the question's
tokens in appearance order, lowercased, stop words skipped, kept exactly
when the part-of-speech tag equals `p`.  Used only to state the refinement
of `_analyze_question` against the spec's wording. -/
def keywordsTagged (stop : List String) (p : String) (ts : List Token) : List String :=
  ts.filterMap
    (fun t =>
      if lower t.text ∈ stop then none
      else if t.pos = p then some (lower t.text) else none)

/-- `sentence_matches[sent_id] = sentence_matches.get(sent_id, 0) + 1` on a
Python (insertion-ordered) dict: an existing key keeps its position, a new
key is appended at the end with count 1. -/
def bump : List (Nat × Nat) → Nat → List (Nat × Nat)
  | [], sid => [(sid, 1)]
  | p :: rest, sid =>
    if p.1 = sid then (p.1, p.2 + 1) :: rest else p :: bump rest sid

/-- The `sentence_matches` dict of `_find_matching_sentences`: for each
document occurrence whose word is in the keyword list, bump its sentence's
counter. -/
def sentenceMatches (words : List WordOccurrence) (ks : List String) : List (Nat × Nat) :=
  words.foldl (fun acc e => if e.word ∈ ks then bump acc e.sentence_id else acc) []

/-- `sentence_matches.get(sid, 0)`: the count recorded for a sentence id
(0 when the id has no entry). -/
def lookupCount : List (Nat × Nat) → Nat → Nat
  | [], _ => 0
  | p :: rest, sid => if p.1 = sid then p.2 else lookupCount rest sid

/-- Stable descending insertion: place `a` before the first element whose
count is ≤ `a`'s count (so among equal counts, earlier input comes first). -/
def insertDesc (a : Nat × Nat) : List (Nat × Nat) → List (Nat × Nat)
  | [] => [a]
  | b :: bs => if b.2 ≤ a.2 then a :: b :: bs else b :: insertDesc a bs

/-- Python's `sorted(items, key=lambda x: x[1], reverse=True)`: a stable
sort by count descending (equal counts keep their input order); any stable
sort computes the same list, here as insertion sort. -/
def sortDesc (l : List (Nat × Nat)) : List (Nat × Nat) :=
  l.foldr insertDesc []

/-- `_find_matching_sentences`: tally, sort by count descending (stable),
then keep the ids whose count reaches `min_matches`. -/
def findMatchingSentences (s : AIState) (ks : List String) (minm : Nat) : List Nat :=
  ((sortDesc (sentenceMatches s.document_words ks)).filter
    (fun p => minm ≤ p.2)).map (fun p => p.1)

/-- Python's `lst[:n]` for an `int` `n`, including the negative case
(`lst[:-k]` drops the last `k` elements). -/
def pySlice {α : Type} (l : List α) (n : Int) : List α :=
  if 0 ≤ n then l.take n.toNat else l.take (l.length - (-n).toNat)

/-- Warning returned by `query` when no document is loaded. -/
def emptyDocumentWarning : String :=
  "⚠ Najpierw wczytaj dokument używając load_pdf() lub load_text()"

/-- Warning returned by `query` when the question yields no keywords. -/
def noKeywordsWarning : String :=
  "⚠ Nie znaleziono słów kluczowych w pytaniu"

/-- Warning returned by `query` when no sentence reaches the threshold. -/
def noMatchesWarning : String :=
  "⚠ Nie znaleziono pasujących fragmentów w dokumencie"

/-- `_analyze_question` as a method: reads `self.stop_words`, assigns no
field, so the state passes through unchanged. -/
def analyzeQuestionS (A : Annotator) (s : AIState) (q : String) :
    AIState × QuestionAnalysis :=
  (s, analyzeQuestion A s q)

/-- `_find_matching_sentences` as a method: reads `self.document_words`,
assigns no field. -/
def findMatchingSentencesS (s : AIState) (ks : List String) (minm : Nat) :
    AIState × List Nat :=
  (s, findMatchingSentences s ks minm)

/-- `query`: the three guard/warning branches, then
`self.sentences[sent_id]` over `matching_sent_ids[:max_results]`.  The
result is `none` exactly when that indexing would raise `IndexError`. -/
def queryS (A : Annotator) (s : AIState) (q : String) (max_results : Int) :
    AIState × Option (List String) :=
  if s.document_words.isEmpty then (s, some [emptyDocumentWarning])
  else
    let p1 := analyzeQuestionS A s q
    if p1.2.all_keywords.isEmpty then (p1.1, some [noKeywordsWarning])
    else
      let p2 := findMatchingSentencesS p1.1 p1.2.all_keywords 1
      if p2.2.isEmpty then (p2.1, some [noMatchesWarning])
      else (p2.1, (pySlice p2.2 max_results).mapM (fun sid => p2.1.sentences.get? sid))

/-- A tiny concrete annotator used to evaluate the model on closed inputs:
document "d1" has sentences "sa" (word a) and "sb" (word b), document "d2"
has the single sentence "sc" (word c), document "d" has the single sentence
"sa"; questions "qa", "qb", "qab" tokenize to the corresponding nouns and
"qthe" to the lone stop word. -/
def testSents : String → List String :=
  fun t =>
    if t = "d1" then ["sa", "sb"]
    else if t = "d2" then ["sc"]
    else if t = "d" then ["sa"]
    else []

/-- Tokenization of the concrete annotator. -/
def testTokens : String → List Token :=
  fun t =>
    if t = "sa" then [⟨"a", "NOUN"⟩]
    else if t = "sb" then [⟨"b", "NOUN"⟩]
    else if t = "sc" then [⟨"c", "NOUN"⟩]
    else if t = "qa" then [⟨"a", "NOUN"⟩]
    else if t = "qb" then [⟨"b", "NOUN"⟩]
    else if t = "qab" then [⟨"a", "NOUN"⟩, ⟨"b", "NOUN"⟩]
    else if t = "qthe" then [⟨"the", "DET"⟩]
    else []

/-- The concrete annotator, with stop-word set containing only "the". -/
def testAnnotator : Annotator :=
  ⟨testSents, testTokens, ["the"]⟩

example : (processText testAnnotator (initState testAnnotator) "d1").document_words =
    [⟨"a", "a", "NOUN", 0, 0⟩, ⟨"b", "b", "NOUN", 1, 0⟩] := by decide

example : (queryS testAnnotator (processText testAnnotator (initState testAnnotator) "d1")
    "qab" 3).2 = some ["sa", "sb"] := by decide

theorem analyzeLoop_eq (stop : List String) (ts : List Token) :
    ∀ vs ns adjs, analyzeLoop stop ts vs ns adjs =
      (vs ++ keywordsTagged stop "VERB" ts,
       ns ++ keywordsTagged stop "NOUN" ts,
       adjs ++ keywordsTagged stop "ADJ" ts) := by
  induction ts with
  | nil => intro vs ns adjs; simp [analyzeLoop, keywordsTagged]
  | cons t ts ih =>
    intro vs ns adjs
    by_cases hstop : lower t.text ∈ stop
    · simp [analyzeLoop, hstop, keywordsTagged, List.filterMap_cons, ih]
    · by_cases hv : t.pos = "VERB"
      · simp [analyzeLoop, hstop, hv, keywordsTagged, List.filterMap_cons, ih]
      · by_cases hn : t.pos = "NOUN"
        · simp [analyzeLoop, hstop, hv, hn, keywordsTagged, List.filterMap_cons, ih]
        · by_cases ha : t.pos = "ADJ"
          · simp [analyzeLoop, hstop, hv, hn, ha, keywordsTagged, List.filterMap_cons, ih]
          · simp [analyzeLoop, hstop, hv, hn, ha, keywordsTagged, List.filterMap_cons, ih]

/-- C8: the `all_keywords` sequence produced by question analysis is the
concatenation verbs ++ nouns ++ adjectives, and each category is exactly
the question's tokens in appearance order, lowercased, with stop words
skipped and with tags other than VERB/NOUN/ADJ contributing nothing. -/
theorem analyze_question_keywords_concat (A : Annotator) (s : AIState) (q : String) :
    (analyzeQuestion A s q).verbs = keywordsTagged s.stop_words "VERB" (A.tokens q) ∧
    (analyzeQuestion A s q).nouns = keywordsTagged s.stop_words "NOUN" (A.tokens q) ∧
    (analyzeQuestion A s q).adjectives = keywordsTagged s.stop_words "ADJ" (A.tokens q) ∧
    (analyzeQuestion A s q).all_keywords =
      (analyzeQuestion A s q).verbs ++ (analyzeQuestion A s q).nouns ++
        (analyzeQuestion A s q).adjectives := by
  simp [analyzeQuestion, analyzeLoop_eq]

/-- C9: a query never writes the document state: the state component after
`query` (and its helpers, which assign no field) is the state before it. -/
theorem query_preserves_state (A : Annotator) (s : AIState) (q : String) (mr : Int) :
    (queryS A s q mr).1 = s := by
  unfold queryS analyzeQuestionS findMatchingSentencesS
  dsimp only
  split
  · rfl
  · split
    · rfl
    · split
      · rfl
      · rfl

/-- C5: with an empty occurrence list, `query` returns the single-element
empty-document warning; the result does not depend on the annotator (the
adapter is never consulted) and the state is unchanged. -/
theorem query_empty_document_warning (A : Annotator) (s : AIState) (q : String) (mr : Int)
    (h : s.document_words = []) :
    queryS A s q mr = (s, some [emptyDocumentWarning]) := by
  simp [queryS, h]

theorem query_empty_document_warning_witness :
    (initState testAnnotator).document_words = [] ∧
      queryS testAnnotator (initState testAnnotator) "qa" 3 =
        (initState testAnnotator, some [emptyDocumentWarning]) :=
  ⟨rfl, query_empty_document_warning testAnnotator (initState testAnnotator) "qa" 3 rfl⟩

/-- C1 is violated by the code: `_process_text` replaces `self.sentences`
but only appends to `self.document_words`, so loading the same one-token
text twice leaves two copies of the occurrence in the list where a single
load leaves one (the sentence list does come back identical). -/
theorem load_twice_appends_occurrences :
    (processText testAnnotator (initState testAnnotator) "d").document_words =
      [⟨"a", "a", "NOUN", 0, 0⟩] ∧
    processText testAnnotator (processText testAnnotator (initState testAnnotator) "d") "d" =
      ⟨[⟨"a", "a", "NOUN", 0, 0⟩, ⟨"a", "a", "NOUN", 0, 0⟩], ["sa"], ["the"]⟩ := by
  decide

/-- C2 is violated by the code: after loading a two-sentence document and
then a one-sentence document, a stale occurrence keeps `sentence_id = 1`
while the current sentence list has length 1, and a query matching that
stale occurrence indexes out of range (`none` models the `IndexError`). -/
theorem stale_sentence_id_out_of_range :
    ((processText testAnnotator (processText testAnnotator (initState testAnnotator) "d1")
        "d2").document_words.any
      (fun e => decide ((processText testAnnotator (processText testAnnotator
        (initState testAnnotator) "d1") "d2").sentences.length ≤ e.sentence_id))) = true ∧
    (queryS testAnnotator (processText testAnnotator (processText testAnnotator
        (initState testAnnotator) "d1") "d2") "qb" 3).2 = none := by
  decide

/-- C10's "or negative" part is false: with `max_results = -1` and two
matching sentences, the Python slice `[: -1]` keeps the first match, so the
result is a non-empty list rather than the empty list. -/
theorem negative_max_results_not_empty :
    findMatchingSentences (processText testAnnotator (initState testAnnotator) "d1")
        (analyzeQuestion testAnnotator
          (processText testAnnotator (initState testAnnotator) "d1") "qab").all_keywords 1 =
      [0, 1] ∧
    (queryS testAnnotator (processText testAnnotator (initState testAnnotator) "d1")
        "qab" (-1)).2 = some ["sa"] := by
  decide

theorem lookupCount_bump (l : List (Nat × Nat)) (k j : Nat) :
    lookupCount (bump l k) j = lookupCount l j + (if k = j then 1 else 0) := by
  induction l with
  | nil => by_cases h : k = j <;> simp [bump, lookupCount, h]
  | cons p rest ih =>
    by_cases hp : p.1 = k
    · subst hp
      by_cases hj : p.1 = j <;> simp [bump, lookupCount, hj]
    · by_cases hj : p.1 = j
      · have hkj : ¬ k = j := fun h => hp (by rw [hj, h])
        have hjk : ¬ j = k := fun h => hkj h.symm
        simp [bump, hp, lookupCount, hj, hkj, hjk]
      · simp [bump, hp, lookupCount, hj, ih]

theorem lookupCount_sentenceMatches (words : List WordOccurrence) (ks : List String)
    (sid : Nat) :
    lookupCount (sentenceMatches words ks) sid =
      words.countP (fun e => decide (e.word ∈ ks) && decide (e.sentence_id = sid)) := by
  have aux : ∀ (ws : List WordOccurrence) (acc : List (Nat × Nat)),
      lookupCount
          (ws.foldl (fun acc e => if e.word ∈ ks then bump acc e.sentence_id else acc) acc)
          sid
        = lookupCount acc sid +
          ws.countP (fun e => decide (e.word ∈ ks) && decide (e.sentence_id = sid)) := by
    intro ws
    induction ws with
    | nil => intro acc; simp
    | cons e ws ih =>
      intro acc
      simp only [List.foldl_cons, List.countP_cons]
      rw [ih]
      by_cases hw : e.word ∈ ks
      · by_cases hs : e.sentence_id = sid
        · simp [hw, hs, lookupCount_bump]
          omega
        · simp [hw, hs, lookupCount_bump]
      · simp [hw]
  simpa [sentenceMatches, lookupCount] using aux words []

theorem sentenceMatches_dup (words : List WordOccurrence) (ks : List String) (w : String)
    (hw : w ∈ ks) :
    sentenceMatches words (w :: ks) = sentenceMatches words ks := by
  have hiff : ∀ x : String, x ∈ w :: ks ↔ x ∈ ks := by
    intro x
    constructor
    · intro hx
      rcases List.mem_cons.mp hx with h1 | h1
      · exact h1 ▸ hw
      · exact h1
    · intro hx
      exact List.mem_cons_of_mem _ hx
  unfold sentenceMatches
  congr 1
  funext acc e
  by_cases h : e.word ∈ ks
  · rw [if_pos ((hiff e.word).mpr h), if_pos h]
  · rw [if_neg (fun hh => h ((hiff e.word).mp hh)), if_neg h]

/-- C4: a sentence's recorded match count is exactly the number of document
occurrences in that sentence whose normalized word is a member of the
keyword list, and duplicating a keyword already in the list leaves the
whole match table unchanged. -/
theorem match_count_membership (words : List WordOccurrence) (ks : List String) (sid : Nat)
    (w : String) (hw : w ∈ ks) :
    lookupCount (sentenceMatches words ks) sid =
      words.countP (fun e => decide (e.word ∈ ks) && decide (e.sentence_id = sid)) ∧
    sentenceMatches words (w :: ks) = sentenceMatches words ks :=
  ⟨lookupCount_sentenceMatches words ks sid, sentenceMatches_dup words ks w hw⟩

theorem match_count_membership_witness :
    ("a" ∈ ["a", "b"]) ∧
    (lookupCount (sentenceMatches [(⟨"a", "a", "NOUN", 0, 0⟩ : WordOccurrence)] ["a", "b"]) 0 =
        List.countP (fun e => decide (e.word ∈ ["a", "b"]) && decide (e.sentence_id = 0))
          [(⟨"a", "a", "NOUN", 0, 0⟩ : WordOccurrence)] ∧
      sentenceMatches [(⟨"a", "a", "NOUN", 0, 0⟩ : WordOccurrence)] ("a" :: ["a", "b"]) =
        sentenceMatches [(⟨"a", "a", "NOUN", 0, 0⟩ : WordOccurrence)] ["a", "b"]) :=
  ⟨by decide, match_count_membership _ _ 0 "a" (by decide)⟩

/-- C6: over a loaded document, a question whose tokens are all stop words
or carry tags other than VERB/NOUN/ADJ yields an empty `all_keywords` list,
and `query` then returns the single-element no-keywords warning. -/
theorem query_no_keywords_warning (A : Annotator) (s : AIState) (q : String) (mr : Int)
    (hdoc : s.document_words ≠ [])
    (htok : ∀ t ∈ A.tokens q, lower t.text ∈ s.stop_words ∨
      (t.pos ≠ "VERB" ∧ t.pos ≠ "NOUN" ∧ t.pos ≠ "ADJ")) :
    (analyzeQuestion A s q).all_keywords = [] ∧
    (queryS A s q mr).2 = some [noKeywordsWarning] := by
  have hcat : ∀ p : String, p = "VERB" ∨ p = "NOUN" ∨ p = "ADJ" →
      keywordsTagged s.stop_words p (A.tokens q) = [] := by
    intro p hp
    rw [keywordsTagged, List.filterMap_eq_nil_iff]
    intro t ht
    rcases htok t ht with h | ⟨h1, h2, h3⟩
    · simp [h]
    · by_cases hs : lower t.text ∈ s.stop_words
      · simp [hs]
      · rcases hp with hp | hp | hp <;> subst hp <;> simp [hs, h1, h2, h3]
  have hall : (analyzeQuestion A s q).all_keywords = [] := by
    have h8 := analyzeLoop_eq s.stop_words (A.tokens q) [] [] []
    simp [analyzeQuestion, h8, hcat "VERB" (Or.inl rfl), hcat "NOUN" (Or.inr (Or.inl rfl)),
      hcat "ADJ" (Or.inr (Or.inr rfl))]
  refine ⟨hall, ?_⟩
  have hdocF : s.document_words.isEmpty = false := by
    cases h : s.document_words with
    | nil => exact absurd h hdoc
    | cons a l => rfl
  simp [queryS, analyzeQuestionS, hdocF, hall]

theorem query_no_keywords_warning_witness :
    ((processText testAnnotator (initState testAnnotator) "d").document_words ≠ []) ∧
    (∀ t ∈ testAnnotator.tokens "qthe",
      lower t.text ∈ (processText testAnnotator (initState testAnnotator) "d").stop_words ∨
      (t.pos ≠ "VERB" ∧ t.pos ≠ "NOUN" ∧ t.pos ≠ "ADJ")) ∧
    ((analyzeQuestion testAnnotator (processText testAnnotator (initState testAnnotator) "d")
        "qthe").all_keywords = [] ∧
      (queryS testAnnotator (processText testAnnotator (initState testAnnotator) "d") "qthe"
        3).2 = some [noKeywordsWarning]) :=
  ⟨by decide, by decide,
    query_no_keywords_warning testAnnotator
      (processText testAnnotator (initState testAnnotator) "d") "qthe" 3
      (by decide) (by decide)⟩

theorem mapM_option_length {α β : Type} (f : α → Option β) :
    ∀ (l : List α) (r : List β), l.mapM f = some r → r.length = l.length := by
  intro l
  induction l with
  | nil =>
    intro r h
    simp only [List.mapM_nil] at h
    cases h
    rfl
  | cons a l ih =>
    intro r h
    rw [List.mapM_cons] at h
    cases hfa : f a with
    | none => rw [hfa] at h; simp at h
    | some b =>
      rw [hfa] at h
      cases hl : l.mapM f with
      | none => rw [hl] at h; simp at h
      | some bs =>
        rw [hl] at h
        simp at h
        simp [← h, ih bs hl]

theorem pySlice_length_le {α : Type} (l : List α) (n : Int) (hn : 0 ≤ n) :
    (pySlice l n).length ≤ n.toNat := by
  simp [pySlice, hn, List.length_take]

theorem sentenceMatches_ks_nil (words : List WordOccurrence) :
    sentenceMatches words [] = [] := by
  unfold sentenceMatches
  induction words with
  | nil => rfl
  | cons e ws _ => simp

theorem findMatchingSentences_words_nil (s : AIState) (ks : List String) (minm : Nat)
    (h : s.document_words = []) : findMatchingSentences s ks minm = [] := by
  simp [findMatchingSentences, sentenceMatches, h, sortDesc]

theorem findMatchingSentences_ks_nil (s : AIState) (minm : Nat) :
    findMatchingSentences s [] minm = [] := by
  simp [findMatchingSentences, sentenceMatches_ks_nil, sortDesc]

/-- C7: whenever `max_results` is non-negative and at least one sentence
matches, the list of sentence texts returned by `query` has length at most
`max_results`. -/
theorem query_length_le_max_results (A : Annotator) (s : AIState) (q : String) (mr : Int)
    (res : List String) (hmr : 0 ≤ mr)
    (hm : findMatchingSentences s (analyzeQuestion A s q).all_keywords 1 ≠ [])
    (hres : (queryS A s q mr).2 = some res) :
    res.length ≤ mr.toNat := by
  have hdoc : s.document_words.isEmpty = false := by
    cases h : s.document_words with
    | nil => exact absurd (findMatchingSentences_words_nil s _ 1 h) hm
    | cons a l => rfl
  have hkw : (analyzeQuestion A s q).all_keywords.isEmpty = false := by
    cases h : (analyzeQuestion A s q).all_keywords with
    | nil => rw [h] at hm; exact absurd (findMatchingSentences_ks_nil s 1) hm
    | cons a l => rfl
  have hmF : (findMatchingSentences s (analyzeQuestion A s q).all_keywords 1).isEmpty
      = false := by
    cases h : findMatchingSentences s (analyzeQuestion A s q).all_keywords 1 with
    | nil => exact absurd h hm
    | cons a l => rfl
  simp only [queryS, analyzeQuestionS, findMatchingSentencesS, hdoc, hkw, hmF,
    Bool.false_eq_true, if_false] at hres
  rw [mapM_option_length _ _ _ hres]
  exact pySlice_length_le _ _ hmr

theorem query_length_le_max_results_witness :
    (0 ≤ (3 : Int)) ∧
    (findMatchingSentences (processText testAnnotator (initState testAnnotator) "d1")
      (analyzeQuestion testAnnotator (processText testAnnotator (initState testAnnotator)
        "d1") "qab").all_keywords 1 ≠ []) ∧
    ((queryS testAnnotator (processText testAnnotator (initState testAnnotator) "d1")
      "qab" 3).2 = some ["sa", "sb"]) ∧
    (["sa", "sb"] : List String).length ≤ (3 : Int).toNat :=
  ⟨by decide, by decide, by decide,
    query_length_le_max_results testAnnotator
      (processText testAnnotator (initState testAnnotator) "d1") "qab" 3 ["sa", "sb"]
      (by decide) (by decide) (by decide)⟩

/-- C10 (amended): with `max_results = 0` on a loaded document whose
sentences match the keywords, `query` returns the empty list, not a
warning entry, because the result slice is empty. -/
theorem query_zero_max_results_empty (A : Annotator) (s : AIState) (q : String)
    (hm : findMatchingSentences s (analyzeQuestion A s q).all_keywords 1 ≠ []) :
    (queryS A s q 0).2 = some [] := by
  have hdoc : s.document_words.isEmpty = false := by
    cases h : s.document_words with
    | nil => exact absurd (findMatchingSentences_words_nil s _ 1 h) hm
    | cons a l => rfl
  have hkw : (analyzeQuestion A s q).all_keywords.isEmpty = false := by
    cases h : (analyzeQuestion A s q).all_keywords with
    | nil => rw [h] at hm; exact absurd (findMatchingSentences_ks_nil s 1) hm
    | cons a l => rfl
  have hmF : (findMatchingSentences s (analyzeQuestion A s q).all_keywords 1).isEmpty
      = false := by
    cases h : findMatchingSentences s (analyzeQuestion A s q).all_keywords 1 with
    | nil => exact absurd h hm
    | cons a l => rfl
  simp [queryS, analyzeQuestionS, findMatchingSentencesS, hdoc, hkw, hmF, pySlice]
  rfl

theorem query_zero_max_results_empty_witness :
    (findMatchingSentences (processText testAnnotator (initState testAnnotator) "d1")
      (analyzeQuestion testAnnotator (processText testAnnotator (initState testAnnotator)
        "d1") "qab").all_keywords 1 ≠ []) ∧
    (queryS testAnnotator (processText testAnnotator (initState testAnnotator) "d1")
      "qab" 0).2 = some [] :=
  ⟨by decide,
    query_zero_max_results_empty testAnnotator
      (processText testAnnotator (initState testAnnotator) "d1") "qab" (by decide)⟩

theorem insertDesc_mem (a x : Nat × Nat) (l : List (Nat × Nat)) :
    x ∈ insertDesc a l ↔ x = a ∨ x ∈ l := by
  induction l with
  | nil => simp [insertDesc]
  | cons b bs ih =>
    by_cases h : b.2 ≤ a.2
    · simp [insertDesc, h, List.mem_cons]
    · simp [insertDesc, h, List.mem_cons, ih]
      tauto

theorem insertDesc_pairwise (a : Nat × Nat) (l : List (Nat × Nat))
    (hl : l.Pairwise (fun p q => q.2 < p.2 ∨ (p.2 = q.2 ∧ p.1 < q.1)))
    (ha : ∀ b ∈ l, a.2 = b.2 → a.1 < b.1) :
    (insertDesc a l).Pairwise (fun p q => q.2 < p.2 ∨ (p.2 = q.2 ∧ p.1 < q.1)) := by
  induction l with
  | nil => simp [insertDesc]
  | cons b bs ih =>
    rcases List.pairwise_cons.mp hl with ⟨hb, hbs⟩
    by_cases h : b.2 ≤ a.2
    · rw [insertDesc, if_pos h]
      refine List.pairwise_cons.mpr ⟨?_, hl⟩
      intro z hz
      rcases List.mem_cons.mp hz with hz | hz
      · subst hz
        rcases Nat.eq_or_lt_of_le h with heq | hlt
        · exact Or.inr ⟨heq.symm, ha z (List.mem_cons_self _ _) heq.symm⟩
        · exact Or.inl hlt
      · rcases hb z hz with hz2 | ⟨hz2, _⟩
        · exact Or.inl (Nat.lt_of_lt_of_le hz2 h)
        · rcases Nat.eq_or_lt_of_le h with heq | hlt
          · exact Or.inr ⟨by rw [← heq, hz2], ha z (List.mem_cons_of_mem _ hz) (by rw [← heq, hz2])⟩
          · exact Or.inl (by rw [← hz2]; exact hlt)
    · rw [insertDesc, if_neg h]
      refine List.pairwise_cons.mpr
        ⟨?_, ih hbs (fun c hc hc2 => ha c (List.mem_cons_of_mem _ hc) hc2)⟩
      intro z hz
      rcases (insertDesc_mem a z bs).mp hz with hz | hz
      · subst hz
        exact Or.inl (Nat.lt_of_not_le h)
      · exact hb z hz

theorem sortDesc_mem (x : Nat × Nat) (l : List (Nat × Nat)) :
    x ∈ sortDesc l ↔ x ∈ l := by
  induction l with
  | nil => simp [sortDesc]
  | cons a l ih =>
    show x ∈ insertDesc a (sortDesc l) ↔ _
    rw [insertDesc_mem, ih, List.mem_cons]

theorem sortDesc_pairwise (l : List (Nat × Nat))
    (h : l.Pairwise (fun p q => p.1 < q.1)) :
    (sortDesc l).Pairwise (fun p q => q.2 < p.2 ∨ (p.2 = q.2 ∧ p.1 < q.1)) := by
  induction l with
  | nil => simp [sortDesc]
  | cons a l ih =>
    rcases List.pairwise_cons.mp h with ⟨ha, hl⟩
    show (insertDesc a (sortDesc l)).Pairwise _
    apply insertDesc_pairwise a (sortDesc l) (ih hl)
    intro b hb _
    exact ha b ((sortDesc_mem b l).mp hb)

theorem bump_fst_of_mem (l : List (Nat × Nat)) (k : Nat) (h : k ∈ l.map Prod.fst) :
    (bump l k).map Prod.fst = l.map Prod.fst := by
  induction l with
  | nil => simp at h
  | cons p rest ih =>
    by_cases hp : p.1 = k
    · simp [bump, hp]
    · have hk : k ∈ rest.map Prod.fst := by
        simp only [List.map_cons, List.mem_cons] at h
        rcases h with h | h
        · exact absurd h.symm hp
        · exact h
      simp [bump, hp, ih hk]

theorem bump_of_not_mem (l : List (Nat × Nat)) (k : Nat) (h : ¬ k ∈ l.map Prod.fst) :
    bump l k = l ++ [(k, 1)] := by
  induction l with
  | nil => simp [bump]
  | cons p rest ih =>
    have hp : ¬ p.1 = k := by
      intro hh
      exact h (by simp [hh])
    have hr : ¬ k ∈ rest.map Prod.fst := by
      intro hh
      exact h (by simp [hh])
    simp [bump, hp, ih hr]

theorem sentenceMatches_keys_lt (words : List WordOccurrence) (ks : List String)
    (hmono : words.Pairwise (fun a b => a.sentence_id ≤ b.sentence_id)) :
    ((sentenceMatches words ks).map Prod.fst).Pairwise (fun a b => a < b) := by
  have aux : ∀ (ws : List WordOccurrence) (acc : List (Nat × Nat)),
      (acc.map Prod.fst).Pairwise (fun a b => a < b) →
      (∀ k ∈ acc.map Prod.fst, ∀ e ∈ ws, k ≤ e.sentence_id) →
      ws.Pairwise (fun a b => a.sentence_id ≤ b.sentence_id) →
      ((ws.foldl (fun acc e => if e.word ∈ ks then bump acc e.sentence_id else acc)
        acc).map Prod.fst).Pairwise (fun a b => a < b) := by
    intro ws
    induction ws with
    | nil => intro acc h1 _ _; simpa using h1
    | cons e ws ih =>
      intro acc h1 h2 h3
      rcases List.pairwise_cons.mp h3 with ⟨he, hws⟩
      simp only [List.foldl_cons]
      by_cases hw : e.word ∈ ks
      · rw [if_pos hw]
        by_cases hk : e.sentence_id ∈ acc.map Prod.fst
        · apply ih (bump acc e.sentence_id)
          · rw [bump_fst_of_mem acc _ hk]
            exact h1
          · intro k hkk e2 he2
            rw [bump_fst_of_mem acc _ hk] at hkk
            exact h2 k hkk e2 (List.mem_cons_of_mem _ he2)
          · exact hws
        · apply ih (bump acc e.sentence_id)
          · rw [bump_of_not_mem acc _ hk, List.map_append]
            apply List.pairwise_append.mpr
            refine ⟨h1, by simp, ?_⟩
            intro a ha' b hb'
            simp only [List.map_cons, List.map_nil, List.mem_singleton] at hb'
            subst hb'
            have hle := h2 a ha' e (List.mem_cons_self _ _)
            have hne : a ≠ e.sentence_id := fun hh => hk (hh ▸ ha')
            exact Nat.lt_of_le_of_ne hle hne
          · intro k hkk e2 he2
            rw [bump_of_not_mem acc _ hk, List.map_append] at hkk
            rcases List.mem_append.mp hkk with hkk | hkk
            · exact h2 k hkk e2 (List.mem_cons_of_mem _ he2)
            · simp only [List.map_cons, List.map_nil, List.mem_singleton] at hkk
              subst hkk
              exact he e2 he2
          · exact hws
      · rw [if_neg hw]
        exact ih acc h1 (fun k hk e2 he2 => h2 k hk e2 (List.mem_cons_of_mem _ he2)) hws
  simpa [sentenceMatches] using aux words [] (by simp) (by simp) hmono

theorem docOccurrences_aux (A : Annotator) (ss : List String) :
    ∀ n : Nat,
      (∀ e ∈ ((ss.enumFrom n).map
          (fun p => ((A.tokens p.2).enum.map (fun q => occurrenceEntry p.1 q.1 q.2)))).flatten,
        n ≤ e.sentence_id) ∧
      (((ss.enumFrom n).map
          (fun p => ((A.tokens p.2).enum.map
            (fun q => occurrenceEntry p.1 q.1 q.2)))).flatten).Pairwise
        (fun a b => a.sentence_id ≤ b.sentence_id) := by
  induction ss with
  | nil => intro n; simp
  | cons s ss ih =>
    intro n
    rcases ih (n + 1) with ⟨ih1, ih2⟩
    have hall : ∀ x ∈ (A.tokens s).enum.map (fun q => occurrenceEntry n q.1 q.2),
        x.sentence_id = n := by
      intro x hx
      rcases List.mem_map.mp hx with ⟨q, _, rfl⟩
      rfl
    constructor
    · intro e hemem
      simp only [List.enumFrom_cons, List.map_cons, List.flatten_cons,
        List.mem_append] at hemem
      rcases hemem with hemem | hemem
      · exact (hall e hemem).symm ▸ Nat.le_refl n
      · exact Nat.le_of_succ_le (ih1 e hemem)
    · simp only [List.enumFrom_cons, List.map_cons, List.flatten_cons]
      apply List.pairwise_append.mpr
      refine ⟨?_, ih2, ?_⟩
      · apply List.pairwise_of_forall_mem_list
        intro a ha b hb
        rw [hall a ha, hall b hb]
      · intro a ha b hb
        rw [hall a ha]
        exact Nat.le_of_succ_le (ih1 b hb)

theorem processText_mono (A : Annotator) (text : String) :
    (processText A (initState A) text).document_words.Pairwise
      (fun a b => a.sentence_id ≤ b.sentence_id) := by
  have h := (docOccurrences_aux A (A.sents text) 0).2
  simpa [processText, initState, docOccurrences, List.enum] using h

theorem lookupCount_of_mem (l : List (Nat × Nat)) (p : Nat × Nat) (hp : p ∈ l)
    (hk : (l.map Prod.fst).Pairwise (fun a b => a ≠ b)) :
    lookupCount l p.1 = p.2 := by
  induction l with
  | nil => simp at hp
  | cons q rest ih =>
    simp only [List.map_cons] at hk
    rcases List.pairwise_cons.mp hk with ⟨hq, hrest⟩
    rcases List.mem_cons.mp hp with hp1 | hp1
    · subst hp1
      simp [lookupCount]
    · by_cases hqp : q.1 = p.1
      · exact absurd hqp (hq p.1 (List.mem_map_of_mem Prod.fst hp1))
      · simp [lookupCount, hqp, ih hp1 hrest]

/-- C3: on a freshly loaded document (occurrence list in document order),
any two sentence ids in the ranked output of `_find_matching_sentences`
with equal match counts appear in ascending `sentence_id` order: the
stable descending sort over the insertion-ordered match table puts the
sentence earlier in the document first. -/
theorem ranking_tiebreak_ascending (A : Annotator) (text : String) (ks : List String)
    (minm : Nat) :
    (findMatchingSentences (processText A (initState A) text) ks minm).Pairwise
      (fun x y =>
        lookupCount (sentenceMatches (processText A (initState A) text).document_words ks) x
          = lookupCount
              (sentenceMatches (processText A (initState A) text).document_words ks) y →
        x < y) := by
  set words := (processText A (initState A) text).document_words with hwdef
  have hmono : words.Pairwise (fun a b => a.sentence_id ≤ b.sentence_id) :=
    processText_mono A text
  have hkeys : ((sentenceMatches words ks).map Prod.fst).Pairwise (fun a b => a < b) :=
    sentenceMatches_keys_lt words ks hmono
  have hkeysne : ((sentenceMatches words ks).map Prod.fst).Pairwise (fun a b => a ≠ b) :=
    hkeys.imp (fun h => Nat.ne_of_lt h)
  have hkeypairs : (sentenceMatches words ks).Pairwise (fun p q => p.1 < q.1) :=
    List.pairwise_map.mp hkeys
  have hsorted := sortDesc_pairwise (sentenceMatches words ks) hkeypairs
  have hflt := hsorted.filter (fun p => decide (minm ≤ p.2))
  have hmem : ∀ p ∈ (sortDesc (sentenceMatches words ks)).filter
      (fun p => decide (minm ≤ p.2)),
      lookupCount (sentenceMatches words ks) p.1 = p.2 := by
    intro p hp
    have hp2 : p ∈ sortDesc (sentenceMatches words ks) := List.mem_of_mem_filter hp
    exact lookupCount_of_mem _ p ((sortDesc_mem p _).mp hp2) hkeysne
  have himp : ((sortDesc (sentenceMatches words ks)).filter
      (fun p => decide (minm ≤ p.2))).Pairwise
      (fun p q => lookupCount (sentenceMatches words ks) p.1 =
        lookupCount (sentenceMatches words ks) q.1 → p.1 < q.1) := by
    apply List.Pairwise.imp_of_mem ?_ hflt
    intro p q hpmem hqmem hpq heq
    rw [hmem p hpmem, hmem q hqmem] at heq
    rcases hpq with h | ⟨h1, h2⟩
    · omega
    · exact h2
  rw [findMatchingSentences]
  exact List.pairwise_map.mpr himp
